import Mathlib

/-!
Verification of the concurrent request orchestration core of
`src/benchmark.py` (class `AsyncServerBenchmark` and its helpers).

The development shallow-embeds the code:

* `makeRequest` / `applyEffect` embed `_make_request` (lines 49-72): the
  per-request classification of a raw transport result and its effect on the
  target's mutable `stats` dict.  Durations are modelled as exact rationals.
* `collectStats`, `applyGatherLoop`, `finalizeStats`, `testServer` embed
  `test_server` (lines 17-47): the burst of `requests_count` concurrent
  requests gathered with `return_exceptions=True`, the post-gather loop over
  captured exceptions, and the final statistics computation.
* `taskResult`, `gatherRun`, `runGather`, `runBenchmark` embed
  `run_benchmark` (lines 74-109): one task per server, gathered with
  `return_exceptions=True` under `asyncio.wait_for(..., timeout=global_timeout)`.
  The scheduler's choice of completion order is an explicit `order` argument;
  the deadline is modelled by the boolean `timedOut` (did `wait_for` raise).
* `Params`, `BState`, `Step`, `Reachable` give a small-step interleaving
  semantics of the admission control: the shared `asyncio.Semaphore
  (max_concurrent)` acquired once per target burst (line 29), the fresh
  per-server semaphore (lines 30, 95), and the shared
  `aiohttp.TCPConnector(limit=100, limit_per_host=per_server_limit)`
  (lines 78-81) that bounds simultaneously open connections per host key.
-/

/-- Classified result of one request attempt (spec §3 `Outcome`).  The code
increments `stats['failed']` without storing the status code; the status is
carried here by the classifier and ignored when recording, mirroring that the
`else` branch at line 61 sees `response.status` but keeps only a count. -/
inductive Outcome where
  | success (elapsed : ℚ)
  | failure (status : Nat)
  | error
  deriving DecidableEq

/-- Raw result of awaiting `self.session.get(url)` + `response.read()` inside
`_make_request` (lines 51-72).  `response status tStart tBodyRead` carries the
wall-clock instants at which the attempt started (line 52) and at which the
body was fully read (line 54); the remaining constructors are the exception
classes of the `except` clauses in source order. -/
inductive RawResult where
  | response (status : Nat) (tStart tBodyRead : ℚ)
  | timeoutError
  | connectionError
  | clientError
  | cancelled
  | otherException
  deriving DecidableEq

/-- What one `_make_request` call does: record an outcome into the stats, or
re-raise `asyncio.CancelledError` (line 69-70). -/
inductive ReqEffect where
  | recorded (o : Outcome)
  | propagateCancel
  deriving DecidableEq

/-- Embedding of `_make_request` classification (lines 53-72): status in
[200, 300) is a success whose elapsed time is `tBodyRead - tStart` (the timer
is stopped after `await response.read()`, line 54-55); any other status is a
failure; `asyncio.TimeoutError`, `aiohttp.ClientConnectionError`,
`aiohttp.ClientError` and any other `Exception` are errors;
`asyncio.CancelledError` is re-raised. -/
def makeRequest : RawResult → ReqEffect
  | .response status tStart tBodyRead =>
      if 200 ≤ status ∧ status < 300 then
        .recorded (.success (tBodyRead - tStart))
      else
        .recorded (.failure status)
  | .timeoutError => .recorded .error
  | .connectionError => .recorded .error
  | .clientError => .recorded .error
  | .cancelled => .propagateCancel
  | .otherException => .recorded .error

/-- The mutable `stats` dict of `test_server` before finalization
(lines 21-27). -/
structure Stats where
  url : String
  success : Nat
  failed : Nat
  errors : Nat
  times : List ℚ
  deriving DecidableEq

/-- The dict literal at lines 21-27. -/
def initStats (url : String) : Stats :=
  { url := url, success := 0, failed := 0, errors := 0, times := [] }

/-- Effect of one `_make_request` call on the target's stats (lines 57-72):
a success increments `success` and appends the elapsed time to `times`; a
failure increments `failed`; an error increments `errors`; a propagated
cancellation leaves the dict untouched. -/
def applyEffect (st : Stats) : ReqEffect → Stats
  | .recorded (.success e) =>
      { st with success := st.success + 1, times := st.times ++ [e] }
  | .recorded (.failure _) => { st with failed := st.failed + 1 }
  | .recorded .error => { st with errors := st.errors + 1 }
  | .propagateCancel => st

/-- Value produced for one `_make_request` coroutine by
`asyncio.gather(*tasks, return_exceptions=True)` at line 32: the coroutine
returns `None`, or its re-raised `CancelledError` is captured. -/
inductive GatherEntry where
  | value
  | cancelledError
  deriving DecidableEq

/-- Gather capture of one request: only a cancelled request yields an
exception object; every other raw result is absorbed into the stats and the
coroutine returns `None`. -/
def gatherEntry (r : RawResult) : GatherEntry :=
  match makeRequest r with
  | .propagateCancel => .cancelledError
  | .recorded _ => .value

/-- The test at lines 35: `isinstance(r, Exception) and not
isinstance(r, (KeyboardInterrupt, asyncio.CancelledError))`.  A plain return
value is not an exception, and `CancelledError` is explicitly excluded (since
Python 3.8 it is not even an `Exception` subclass). -/
def countsAsTaskError : GatherEntry → Bool
  | .value => false
  | .cancelledError => false

/-- Lines 29-32: the burst of `requests_count` concurrent `_make_request`
calls, each yielding one `RawResult`, folded over the shared stats dict.  The
interleaving of the concurrent increments does not matter: each call performs
commuting counter increments, and Python list append order is the gather
argument order for equal-time completions; we take the list order of `raws`
as the completion order of the requests. -/
def collectStats (url : String) (raws : List RawResult) : Stats :=
  raws.foldl (fun st r => applyEffect st (makeRequest r)) (initStats url)

/-- Lines 34-36: after the gather, every captured exception that is an
`Exception` but neither `KeyboardInterrupt` nor `CancelledError` increments
`stats['errors']`. -/
def applyGatherLoop (st : Stats) (raws : List RawResult) : Stats :=
  { st with
    errors := st.errors + ((raws.map gatherEntry).filter countsAsTaskError).length }

/-- The fully finalized stats dict returned by `test_server` (lines 38-47).
`variance` is the local variable of line 42; the code stores
`std_dev = variance ** 0.5`, kept exactly as `FinalStats.stdDev` below. -/
structure FinalStats where
  url : String
  success : Nat
  failed : Nat
  errors : Nat
  times : List ℚ
  min : ℚ
  max : ℚ
  avg : ℚ
  variance : ℚ
  deriving DecidableEq

/-- Python `min` over a nonempty list (line 39); `0` is never produced from
the guarded branch. -/
def pyMin : List ℚ → ℚ
  | [] => 0
  | x :: xs => xs.foldl Min.min x

/-- Python `max` over a nonempty list (line 40). -/
def pyMax : List ℚ → ℚ
  | [] => 0
  | x :: xs => xs.foldl Max.max x

/-- Lines 38-45: `if stats['times']:` compute min/max/avg/std-dev, else set
all four to `0`. -/
def finalizeStats (st : Stats) : FinalStats :=
  if st.times.isEmpty then
    { url := st.url, success := st.success, failed := st.failed,
      errors := st.errors, times := st.times,
      min := 0, max := 0, avg := 0, variance := 0 }
  else
    let avg : ℚ := st.times.sum / st.times.length
    { url := st.url, success := st.success, failed := st.failed,
      errors := st.errors, times := st.times,
      min := pyMin st.times, max := pyMax st.times, avg := avg,
      variance := (st.times.map (fun t => (t - avg) ^ 2)).sum / st.times.length }

/-- Line 43: `stats['std_dev'] = variance ** 0.5`, as the real square root of
the exact variance. -/
noncomputable def FinalStats.stdDev (f : FinalStats) : ℝ :=
  Real.sqrt (f.variance : ℝ)

/-- Embedding of `test_server` (lines 17-47) as a function of the raw results
of its `requests_count` spawned requests. -/
def testServer (url : String) (raws : List RawResult) : FinalStats :=
  finalizeStats (applyGatherLoop (collectStats url raws) raws)

/-- The elapsed times of the successfully classified attempts, in order. -/
def successTimes (raws : List RawResult) : List ℚ :=
  raws.filterMap fun r =>
    match makeRequest r with
    | .recorded (.success e) => some e
    | _ => none

/-- The outcomes actually recorded into the stats (cancelled attempts record
nothing). -/
def recordedOutcomes (raws : List RawResult) : List Outcome :=
  raws.filterMap fun r =>
    match makeRequest r with
    | .recorded o => some o
    | .propagateCancel => none

/-- Spec §4.3: arithmetic mean of a latency list. -/
def specMean (l : List ℚ) : ℚ := l.sum / l.length

/-- Spec §4.3: population variance — divide by N, not N−1. -/
def specPopVariance (l : List ℚ) : ℚ :=
  (l.map (fun t => (t - specMean l) ^ 2)).sum / l.length

/-- Spec §4.3: population standard deviation. -/
noncomputable def specPopStdDev (l : List ℚ) : ℝ :=
  Real.sqrt ((specPopVariance l : ℚ) : ℝ)

/-- Input of one per-server task in `run_benchmark` (lines 93-97): either the
task runs its burst normally over the given raw results, or it fails with an
unexpected exception before producing a stats dict (spec §4.4 TaskFailure). -/
inductive TaskInput where
  | run (raws : List RawResult)
  | fail
  deriving DecidableEq

/-- One slot of the list produced by the outer
`asyncio.gather(*tasks, return_exceptions=True)` (line 100): the stats dict
returned by `test_server`, or the captured exception object. -/
inductive TaskEntry where
  | stats (s : FinalStats)
  | exc
  deriving DecidableEq

/-- Result of one server's task. -/
def taskResult (url : String) : TaskInput → TaskEntry
  | .run raws => .stats (testServer url raws)
  | .fail => .exc

/-- Semantics of `asyncio.gather` over `n` tasks: tasks complete in the
scheduler-chosen sequence `order` (indices into the task list), and each
completion stores that task's result at the task's own index.  Unfilled slots
stay `none`. -/
def gatherRun {α : Type} (f : Nat → α) (n : Nat) (order : List Nat) :
    List (Option α) :=
  order.foldl (fun acc k => acc.set k (some (f k))) (List.replicate n none)

/-- The outer gather of line 100: one task per server (lines 93-97), in the
order of the `servers` list. -/
def runGather (servers : List String) (inputs : List TaskInput)
    (order : List Nat) : List (Option TaskEntry) :=
  gatherRun (fun k => taskResult (servers.getD k "") (inputs.getD k .fail))
    servers.length order

/-- Embedding of `run_benchmark` (lines 74-109).  `self.results` is `[]` from
`__init__` (line 13); it is assigned only by the completed
`await asyncio.wait_for(asyncio.gather(...))` at lines 99-102.  If the
overall deadline elapses first, `wait_for` raises `asyncio.TimeoutError`, the
assignment never runs, the handler at lines 104-105 only prints, and line 109
returns the untouched initial `[]`. -/
def runBenchmark (servers : List String) (inputs : List TaskInput)
    (order : List Nat) (timedOut : Bool) : List (Option TaskEntry) :=
  if timedOut then [] else runGather servers inputs order

/-- Static parameters of one run: number of targets `n`, requests per target
`m` (`requests_count`), `max_concurrent`, `per_server_limit`, the
`TCPConnector(limit=100)` total-connection cap, and the connection-pool key
(host) of each target URL — `limit_per_host` counts per host key, so two
target URLs on one host share a pool bucket. -/
structure Params where
  n : Nat
  m : Nat
  maxConcurrent : Nat
  perServerLimit : Nat
  connLimit : Nat
  host : Fin n → Nat

/-- Phase of one target's `test_server` task: not yet through
`async with global_sem` (line 29); holding its global slot with its burst
running (lines 29-32); finished and slots released. -/
inductive TPhase where
  | waiting
  | running
  | done
  deriving DecidableEq

/-- Phase of one request of a target: its coroutine not yet spawned; spawned
and waiting for a pooled connection to its host; holding a connection with
the request on the wire (until the body is fully read, line 54); finished. -/
inductive RPhase where
  | idle
  | pendingConn
  | inFlight
  | finished
  deriving DecidableEq

/-- Instantaneous state of a run: the phase of every target task and of every
request of every target. -/
structure BState (p : Params) where
  tphase : Fin p.n → TPhase
  rphase : Fin p.n → Fin p.m → RPhase

/-- All tasks created, none scheduled yet. -/
def initState (p : Params) : BState p :=
  { tphase := fun _ => .waiting, rphase := fun _ _ => .idle }

/-- Number of targets currently holding a slot of the global semaphore. -/
def runningCount {p : Params} (s : BState p) : Nat :=
  (Finset.univ.filter fun i => s.tphase i = TPhase.running).card

/-- Number of requests currently holding a pooled connection to host `h`. -/
def hostInFlight {p : Params} (s : BState p) (h : Nat) : Nat :=
  (Finset.univ.filter fun ij : Fin p.n × Fin p.m =>
    p.host ij.1 = h ∧ s.rphase ij.1 ij.2 = RPhase.inFlight).card

/-- Number of requests of target `i` currently on the wire. -/
def targetInFlight {p : Params} (s : BState p) (i : Fin p.n) : Nat :=
  (Finset.univ.filter fun j => s.rphase i j = RPhase.inFlight).card

/-- Total number of open pooled connections. -/
def totalInFlight {p : Params} (s : BState p) : Nat :=
  (Finset.univ.filter fun ij : Fin p.n × Fin p.m =>
    s.rphase ij.1 ij.2 = RPhase.inFlight).card

/-- Interleaved small-step semantics of the admission control.

* `acquire`: a waiting task passes `async with global_sem` (line 29) — only
  possible while fewer than `max_concurrent` targets hold a slot — and then
  `async with server_sem` (line 30), which never blocks because the per-server
  semaphore is created fresh with capacity `per_server_limit ≥ 1` (line 95)
  and the task takes a single slot for the whole burst; the burst's request
  coroutines are all spawned (line 31-32).
* `connect`: a spawned request obtains a pooled connection — gated by the
  connector's `limit_per_host=per_server_limit` for its host key and by the
  total `limit=100` (lines 78-79).
* `finishReq`: a request finishes reading the body and releases its
  connection.
* `finishTarget`: when all requests of a target are done, the gather at
  line 32 returns and the task releases the server and global slots. -/
inductive Step (p : Params) : BState p → BState p → Prop where
  | acquire (i : Fin p.n) (s : BState p)
      (hw : s.tphase i = .waiting)
      (hg : runningCount s < p.maxConcurrent)
      (hps : 0 < p.perServerLimit) :
      Step p s
        { tphase := Function.update s.tphase i .running,
          rphase := fun a b => if a = i then .pendingConn else s.rphase a b }
  | connect (i : Fin p.n) (j : Fin p.m) (s : BState p)
      (hr : s.tphase i = .running)
      (hp : s.rphase i j = .pendingConn)
      (hh : hostInFlight s (p.host i) < p.perServerLimit)
      (ht : totalInFlight s < p.connLimit) :
      Step p s
        { tphase := s.tphase,
          rphase := fun a b => if a = i ∧ b = j then .inFlight else s.rphase a b }
  | finishReq (i : Fin p.n) (j : Fin p.m) (s : BState p)
      (hf : s.rphase i j = .inFlight) :
      Step p s
        { tphase := s.tphase,
          rphase := fun a b => if a = i ∧ b = j then .finished else s.rphase a b }
  | finishTarget (i : Fin p.n) (s : BState p)
      (hr : s.tphase i = .running)
      (hall : ∀ j, s.rphase i j = .finished) :
      Step p s
        { tphase := Function.update s.tphase i .done, rphase := s.rphase }

/-- States reachable from the start of the run. -/
def Reachable (p : Params) (s : BState p) : Prop :=
  Relation.ReflTransGen (Step p) (initState p) s

/-! ### Helper lemmas about the per-target stats pipeline -/

lemma countsAsTaskError_false (e : GatherEntry) : countsAsTaskError e = false := by
  cases e <;> rfl

/-- The loop at lines 34-36 never increments `errors`: `_make_request` lets
only `CancelledError` escape, and the loop's condition excludes it. -/
lemma gatherLoop_adds_nothing (raws : List RawResult) :
    ((raws.map gatherEntry).filter countsAsTaskError).length = 0 := by
  have h : (raws.map gatherEntry).filter countsAsTaskError = [] :=
    List.filter_eq_nil_iff.mpr fun a _ => by simp [countsAsTaskError_false]
  rw [h]
  rfl

lemma applyGatherLoop_eq (st : Stats) (raws : List RawResult) :
    applyGatherLoop st raws = st := by
  unfold applyGatherLoop
  rw [gatherLoop_adds_nothing]
  simp

lemma collect_foldl_times (raws : List RawResult) : ∀ st : Stats,
    (raws.foldl (fun st r => applyEffect st (makeRequest r)) st).times
      = st.times ++ successTimes raws := by
  induction raws with
  | nil => intro st; simp [successTimes]
  | cons r rest ih =>
    intro st
    rw [List.foldl_cons, ih]
    cases r with
    | response status t0 t1 =>
      by_cases h : 200 ≤ status ∧ status < 300 <;>
        simp [makeRequest, h, applyEffect, successTimes, List.filterMap_cons]
    | timeoutError => simp [makeRequest, applyEffect, successTimes, List.filterMap_cons]
    | connectionError => simp [makeRequest, applyEffect, successTimes, List.filterMap_cons]
    | clientError => simp [makeRequest, applyEffect, successTimes, List.filterMap_cons]
    | cancelled => simp [makeRequest, applyEffect, successTimes, List.filterMap_cons]
    | otherException => simp [makeRequest, applyEffect, successTimes, List.filterMap_cons]

lemma collect_foldl_success (raws : List RawResult) : ∀ st : Stats,
    (raws.foldl (fun st r => applyEffect st (makeRequest r)) st).success
      = st.success + (successTimes raws).length := by
  induction raws with
  | nil => intro st; simp [successTimes]
  | cons r rest ih =>
    intro st
    rw [List.foldl_cons, ih]
    cases r with
    | response status t0 t1 =>
      by_cases h : 200 ≤ status ∧ status < 300 <;>
        · simp [makeRequest, h, applyEffect, successTimes, List.filterMap_cons]
          all_goals omega
    | timeoutError => simp [makeRequest, applyEffect, successTimes, List.filterMap_cons]
    | connectionError => simp [makeRequest, applyEffect, successTimes, List.filterMap_cons]
    | clientError => simp [makeRequest, applyEffect, successTimes, List.filterMap_cons]
    | cancelled => simp [makeRequest, applyEffect, successTimes, List.filterMap_cons]
    | otherException => simp [makeRequest, applyEffect, successTimes, List.filterMap_cons]

lemma collect_foldl_counts (raws : List RawResult) : ∀ st : Stats,
    (raws.foldl (fun st r => applyEffect st (makeRequest r)) st).success
      + (raws.foldl (fun st r => applyEffect st (makeRequest r)) st).failed
      + (raws.foldl (fun st r => applyEffect st (makeRequest r)) st).errors
      = st.success + st.failed + st.errors + (recordedOutcomes raws).length := by
  induction raws with
  | nil => intro st; simp [recordedOutcomes]
  | cons r rest ih =>
    intro st
    rw [List.foldl_cons, ih]
    cases r with
    | response status t0 t1 =>
      by_cases h : 200 ≤ status ∧ status < 300 <;>
        simp [makeRequest, h, applyEffect, recordedOutcomes, List.filterMap_cons] <;> omega
    | timeoutError =>
      simp [makeRequest, applyEffect, recordedOutcomes, List.filterMap_cons]; omega
    | connectionError =>
      simp [makeRequest, applyEffect, recordedOutcomes, List.filterMap_cons]; omega
    | clientError =>
      simp [makeRequest, applyEffect, recordedOutcomes, List.filterMap_cons]; omega
    | cancelled =>
      simp [makeRequest, applyEffect, recordedOutcomes, List.filterMap_cons]
    | otherException =>
      simp [makeRequest, applyEffect, recordedOutcomes, List.filterMap_cons]; omega

lemma collectStats_times (url : String) (raws : List RawResult) :
    (collectStats url raws).times = successTimes raws := by
  unfold collectStats
  rw [collect_foldl_times]
  rfl

lemma collectStats_success (url : String) (raws : List RawResult) :
    (collectStats url raws).success = (successTimes raws).length := by
  unfold collectStats
  rw [collect_foldl_success]
  simp [initStats]

/-- Every raw result is either recorded as exactly one outcome or is a
cancellation: the recorded outcomes and the cancelled attempts partition the
burst. -/
lemma recorded_add_cancelled (raws : List RawResult) :
    (recordedOutcomes raws).length + raws.count .cancelled = raws.length := by
  induction raws with
  | nil => rfl
  | cons r rest ih =>
    cases r with
    | response status t0 t1 =>
      by_cases h : 200 ≤ status ∧ status < 300 <;>
        simp [recordedOutcomes, List.filterMap_cons, makeRequest, h,
          List.count_cons] at * <;> omega
    | timeoutError =>
      simp [recordedOutcomes, List.filterMap_cons, makeRequest, List.count_cons] at *
      omega
    | connectionError =>
      simp [recordedOutcomes, List.filterMap_cons, makeRequest, List.count_cons] at *
      omega
    | clientError =>
      simp [recordedOutcomes, List.filterMap_cons, makeRequest, List.count_cons] at *
      omega
    | cancelled =>
      simp [recordedOutcomes, List.filterMap_cons, makeRequest, List.count_cons] at *
      omega
    | otherException =>
      simp [recordedOutcomes, List.filterMap_cons, makeRequest, List.count_cons] at *
      omega

lemma finalizeStats_counters (st : Stats) :
    (finalizeStats st).success = st.success ∧ (finalizeStats st).failed = st.failed
      ∧ (finalizeStats st).errors = st.errors ∧ (finalizeStats st).times = st.times := by
  unfold finalizeStats
  split <;> exact ⟨rfl, rfl, rfl, rfl⟩

/-! ### Helper lemmas about Python `min` / `max` over a nonempty list -/

lemma foldl_min_le_init (xs : List ℚ) : ∀ a : ℚ, xs.foldl Min.min a ≤ a := by
  induction xs with
  | nil => intro a; simp
  | cons x xs ih =>
    intro a
    exact le_trans (ih (min a x)) (min_le_left a x)

lemma foldl_min_le_mem (xs : List ℚ) : ∀ a : ℚ, ∀ t ∈ xs, xs.foldl Min.min a ≤ t := by
  induction xs with
  | nil => intro a t ht; simp at ht
  | cons x xs ih =>
    intro a t ht
    rcases List.mem_cons.mp ht with h | h
    · subst h
      exact le_trans (foldl_min_le_init xs (min a t)) (min_le_right a t)
    · exact ih (min a x) t h

lemma foldl_min_mem (xs : List ℚ) :
    ∀ a : ℚ, xs.foldl Min.min a = a ∨ xs.foldl Min.min a ∈ xs := by
  induction xs with
  | nil => intro a; simp
  | cons x xs ih =>
    intro a
    rcases ih (min a x) with h | h
    · rcases min_choice a x with hm | hm
      · simp only [List.foldl_cons]
        rw [h, hm]
        exact Or.inl rfl
      · simp only [List.foldl_cons]
        rw [h, hm]
        exact Or.inr (List.mem_cons_self x xs)
    · exact Or.inr (List.mem_cons_of_mem x h)

lemma pyMin_mem (l : List ℚ) (h : l ≠ []) : pyMin l ∈ l := by
  cases l with
  | nil => exact absurd rfl h
  | cons x xs =>
    rcases foldl_min_mem xs x with h' | h'
    · rw [pyMin, h']
      exact List.mem_cons_self x xs
    · exact List.mem_cons_of_mem x h'

lemma pyMin_le (l : List ℚ) (t : ℚ) (ht : t ∈ l) : pyMin l ≤ t := by
  cases l with
  | nil => simp at ht
  | cons x xs =>
    rcases List.mem_cons.mp ht with h | h
    · subst h
      exact foldl_min_le_init xs t
    · exact foldl_min_le_mem xs x t h

lemma foldl_max_init_le (xs : List ℚ) : ∀ a : ℚ, a ≤ xs.foldl Max.max a := by
  induction xs with
  | nil => intro a; simp
  | cons x xs ih =>
    intro a
    exact le_trans (le_max_left a x) (ih (max a x))

lemma foldl_max_mem_le (xs : List ℚ) : ∀ a : ℚ, ∀ t ∈ xs, t ≤ xs.foldl Max.max a := by
  induction xs with
  | nil => intro a t ht; simp at ht
  | cons x xs ih =>
    intro a t ht
    rcases List.mem_cons.mp ht with h | h
    · subst h
      exact le_trans (le_max_right a t) (foldl_max_init_le xs (max a t))
    · exact ih (max a x) t h

lemma foldl_max_mem (xs : List ℚ) :
    ∀ a : ℚ, xs.foldl Max.max a = a ∨ xs.foldl Max.max a ∈ xs := by
  induction xs with
  | nil => intro a; simp
  | cons x xs ih =>
    intro a
    rcases ih (max a x) with h | h
    · rcases max_choice a x with hm | hm
      · simp only [List.foldl_cons]
        rw [h, hm]
        exact Or.inl rfl
      · simp only [List.foldl_cons]
        rw [h, hm]
        exact Or.inr (List.mem_cons_self x xs)
    · exact Or.inr (List.mem_cons_of_mem x h)

lemma pyMax_mem (l : List ℚ) (h : l ≠ []) : pyMax l ∈ l := by
  cases l with
  | nil => exact absurd rfl h
  | cons x xs =>
    rcases foldl_max_mem xs x with h' | h'
    · rw [pyMax, h']
      exact List.mem_cons_self x xs
    · exact List.mem_cons_of_mem x h'

lemma pyMax_ge (l : List ℚ) (t : ℚ) (ht : t ∈ l) : t ≤ pyMax l := by
  cases l with
  | nil => simp at ht
  | cons x xs =>
    rcases List.mem_cons.mp ht with h | h
    · subst h
      exact foldl_max_init_le xs t
    · exact foldl_max_mem_le xs x t h

/-! ### Helper lemmas about the gather model -/

lemma gather_foldl_length {α : Type} (f : Nat → α) (order : List Nat) :
    ∀ acc : List (Option α),
      (order.foldl (fun a k => a.set k (some (f k))) acc).length = acc.length := by
  induction order with
  | nil => intro acc; rfl
  | cons k rest ih =>
    intro acc
    rw [List.foldl_cons, ih, List.length_set]

lemma gather_foldl_getElem {α : Type} (f : Nat → α) (order : List Nat) :
    ∀ (acc : List (Option α)) (i : Nat),
      (order.foldl (fun a k => a.set k (some (f k))) acc)[i]? =
        if i ∈ order ∧ i < acc.length then some (some (f i)) else acc[i]? := by
  induction order with
  | nil => intro acc i; simp
  | cons k rest ih =>
    intro acc i
    rw [List.foldl_cons, ih, List.length_set, List.getElem?_set]
    by_cases hik : k = i
    · subst hik
      by_cases hlt : k < acc.length
      · by_cases hrest : k ∈ rest <;>
          simp [hrest, hlt, List.mem_cons]
      · have h1 : ¬ (k ∈ rest ∧ k < acc.length) := fun h => hlt h.2
        have h2 : ¬ (k ∈ k :: rest ∧ k < acc.length) := fun h => hlt h.2
        simp only [h1, h2, if_neg, if_false, hlt]
        rw [List.getElem?_eq_none (Nat.le_of_not_lt hlt)]
        simp
    · have hmem : (i ∈ k :: rest) ↔ (i ∈ rest) := by
        constructor
        · intro h
          rcases List.mem_cons.mp h with h | h
          · exact absurd h.symm hik
          · exact h
        · exact fun h => List.mem_cons_of_mem k h
      simp [hik, hmem]

lemma gatherRun_length {α : Type} (f : Nat → α) (n : Nat) (order : List Nat) :
    (gatherRun f n order).length = n := by
  unfold gatherRun
  rw [gather_foldl_length, List.length_replicate]

lemma gatherRun_getElem {α : Type} (f : Nat → α) (n : Nat) (order : List Nat)
    (i : Nat) :
    (gatherRun f n order)[i]? =
      if i ∈ order ∧ i < n then some (some (f i))
      else if i < n then some none else none := by
  unfold gatherRun
  rw [gather_foldl_getElem, List.length_replicate]
  by_cases h : i ∈ order ∧ i < n
  · simp [h]
  · simp only [h, if_false]
    rw [List.getElem?_replicate]

/-- The gather at line 100 is order-insensitive: whatever the completion
order (any permutation of the task indices), the assembled list holds every
task's result at that task's own index. -/
lemma gatherRun_perm {α : Type} (f : Nat → α) (n : Nat) (order : List Nat)
    (h : order.Perm (List.range n)) :
    gatherRun f n order = (List.range n).map (fun k => some (f k)) := by
  apply List.ext_getElem?
  intro i
  rw [gatherRun_getElem]
  have hmem : i ∈ order ↔ i < n := by
    rw [h.mem_iff, List.mem_range]
  by_cases hi : i < n
  · simp [hmem, hi, List.getElem?_map, List.getElem?_range hi]
  · have hlen : (List.range n).length ≤ i := by
      rw [List.length_range]
      omega
    simp only [hmem, hi, and_false, if_false, and_self]
    rw [List.getElem?_map, List.getElem?_eq_none hlen]
    simp

/-! ### Admission-control invariants -/

/-- Inductive invariant of the interleaving semantics: the global semaphore
is never oversubscribed, no host's connection pool is oversubscribed, and a
target that has not yet entered its burst has spawned no request. -/
def AdmInv (p : Params) (s : BState p) : Prop :=
  runningCount s ≤ p.maxConcurrent ∧
  (∀ h : Nat, hostInFlight s h ≤ p.perServerLimit) ∧
  (∀ (i : Fin p.n) (j : Fin p.m), s.tphase i = .waiting → s.rphase i j = .idle)

lemma admInv_init (p : Params) : AdmInv p (initState p) := by
  refine ⟨?_, ?_, ?_⟩
  · have h : (Finset.univ.filter
        fun i : Fin p.n => (initState p).tphase i = TPhase.running) = ∅ := by
      apply Finset.filter_false_of_mem
      intro i _
      simp [initState]
    unfold runningCount
    rw [h]
    simp
  · intro hkey
    have h : (Finset.univ.filter fun ij : Fin p.n × Fin p.m =>
        p.host ij.1 = hkey ∧ (initState p).rphase ij.1 ij.2 = RPhase.inFlight) = ∅ := by
      apply Finset.filter_false_of_mem
      intro ij _
      simp [initState]
    unfold hostInFlight
    rw [h]
    simp
  · intro i j _
    rfl


lemma admInv_step (p : Params) (s s' : BState p)
    (hs : AdmInv p s) (hstep : Step p s s') : AdmInv p s' := by
  obtain ⟨h1, h2, h3⟩ := hs
  cases hstep with
  | acquire i s hw hg hps =>
    refine ⟨?_, ?_, ?_⟩
    · have hsub : (Finset.univ.filter
          fun a : Fin p.n => Function.update s.tphase i TPhase.running a = TPhase.running)
          ⊆ insert i (Finset.univ.filter fun a : Fin p.n => s.tphase a = TPhase.running) := by
        intro a ha
        rw [Finset.mem_filter] at ha
        rw [Finset.mem_insert]
        by_cases hai : a = i
        · exact Or.inl hai
        · rw [Function.update_noteq hai] at ha
          exact Or.inr (Finset.mem_filter.mpr ⟨Finset.mem_univ a, ha.2⟩)
      have hc1 := Finset.card_le_card hsub
      have hc2 := Finset.card_insert_le i
        (Finset.univ.filter fun a : Fin p.n => s.tphase a = TPhase.running)
      have hg' : (Finset.univ.filter
          fun a : Fin p.n => s.tphase a = TPhase.running).card < p.maxConcurrent := hg
      show (Finset.univ.filter
          fun a : Fin p.n =>
            Function.update s.tphase i TPhase.running a = TPhase.running).card
          ≤ p.maxConcurrent
      omega
    · intro hkey
      have heq : (Finset.univ.filter fun ij : Fin p.n × Fin p.m =>
          p.host ij.1 = hkey ∧
            (if ij.1 = i then RPhase.pendingConn else s.rphase ij.1 ij.2) = RPhase.inFlight)
          = Finset.univ.filter fun ij : Fin p.n × Fin p.m =>
              p.host ij.1 = hkey ∧ s.rphase ij.1 ij.2 = RPhase.inFlight := by
        apply Finset.filter_congr
        intro ij _
        by_cases hai : ij.1 = i
        · rw [if_pos hai]
          constructor
          · rintro ⟨-, hcontr⟩
            exact absurd hcontr (by simp)
          · rintro ⟨-, hcontr⟩
            rw [hai, h3 i ij.2 hw] at hcontr
            exact absurd hcontr (by simp)
        · rw [if_neg hai]
      show (Finset.univ.filter fun ij : Fin p.n × Fin p.m =>
          p.host ij.1 = hkey ∧
            (if ij.1 = i then RPhase.pendingConn else s.rphase ij.1 ij.2)
              = RPhase.inFlight).card
          ≤ p.perServerLimit
      rw [heq]
      exact h2 hkey
    · intro a b ha
      have ha2 : Function.update s.tphase i TPhase.running a = TPhase.waiting := ha
      by_cases hai : a = i
      · rw [hai, Function.update_same] at ha2
        exact absurd ha2 (by simp)
      · rw [Function.update_noteq hai] at ha2
        show (if a = i then RPhase.pendingConn else s.rphase a b) = RPhase.idle
        rw [if_neg hai]
        exact h3 a b ha2
  | connect i j s hr hp hh ht =>
    refine ⟨h1, ?_, ?_⟩
    · intro hkey
      by_cases hkh : p.host i = hkey
      · have hsub : (Finset.univ.filter fun ij : Fin p.n × Fin p.m =>
            p.host ij.1 = hkey ∧
              (if ij.1 = i ∧ ij.2 = j then RPhase.inFlight else s.rphase ij.1 ij.2)
                = RPhase.inFlight)
            ⊆ insert (i, j) (Finset.univ.filter fun ij : Fin p.n × Fin p.m =>
                p.host ij.1 = hkey ∧ s.rphase ij.1 ij.2 = RPhase.inFlight) := by
          intro ab hab
          rw [Finset.mem_filter] at hab
          rw [Finset.mem_insert]
          by_cases hc : ab.1 = i ∧ ab.2 = j
          · exact Or.inl (Prod.ext hc.1 hc.2)
          · rw [if_neg hc] at hab
            exact Or.inr (Finset.mem_filter.mpr ⟨Finset.mem_univ ab, hab.2⟩)
        have hc1 := Finset.card_le_card hsub
        have hc2 := Finset.card_insert_le ((i, j) : Fin p.n × Fin p.m)
          (Finset.univ.filter fun ij : Fin p.n × Fin p.m =>
            p.host ij.1 = hkey ∧ s.rphase ij.1 ij.2 = RPhase.inFlight)
        have hlt : (Finset.univ.filter fun ij : Fin p.n × Fin p.m =>
            p.host ij.1 = hkey ∧ s.rphase ij.1 ij.2 = RPhase.inFlight).card
            < p.perServerLimit := by
          have hh' : (Finset.univ.filter fun ij : Fin p.n × Fin p.m =>
              p.host ij.1 = p.host i ∧ s.rphase ij.1 ij.2 = RPhase.inFlight).card
              < p.perServerLimit := hh
          rw [hkh] at hh'
          exact hh'
        show (Finset.univ.filter fun ij : Fin p.n × Fin p.m =>
            p.host ij.1 = hkey ∧
              (if ij.1 = i ∧ ij.2 = j then RPhase.inFlight else s.rphase ij.1 ij.2)
                = RPhase.inFlight).card
            ≤ p.perServerLimit
        omega
      · have heq : (Finset.univ.filter fun ij : Fin p.n × Fin p.m =>
            p.host ij.1 = hkey ∧
              (if ij.1 = i ∧ ij.2 = j then RPhase.inFlight else s.rphase ij.1 ij.2)
                = RPhase.inFlight)
            = Finset.univ.filter fun ij : Fin p.n × Fin p.m =>
                p.host ij.1 = hkey ∧ s.rphase ij.1 ij.2 = RPhase.inFlight := by
          apply Finset.filter_congr
          intro ab _
          by_cases hc : ab.1 = i ∧ ab.2 = j
          · rw [if_pos hc]
            constructor
            · rintro ⟨hhost, -⟩
              rw [hc.1] at hhost
              exact absurd hhost hkh
            · rintro ⟨hhost, -⟩
              rw [hc.1] at hhost
              exact absurd hhost hkh
          · rw [if_neg hc]
        show (Finset.univ.filter fun ij : Fin p.n × Fin p.m =>
            p.host ij.1 = hkey ∧
              (if ij.1 = i ∧ ij.2 = j then RPhase.inFlight else s.rphase ij.1 ij.2)
                = RPhase.inFlight).card
            ≤ p.perServerLimit
        rw [heq]
        exact h2 hkey
    · intro a b ha
      have ha2 : s.tphase a = TPhase.waiting := ha
      have hai : ¬ a = i := by
        intro hcontr
        rw [hcontr, hr] at ha2
        exact absurd ha2 (by simp)
      show (if a = i ∧ b = j then RPhase.inFlight else s.rphase a b) = RPhase.idle
      rw [if_neg fun hc => hai hc.1]
      exact h3 a b ha2
  | finishReq i j s hf =>
    refine ⟨h1, ?_, ?_⟩
    · intro hkey
      have hsub : (Finset.univ.filter fun ij : Fin p.n × Fin p.m =>
          p.host ij.1 = hkey ∧
            (if ij.1 = i ∧ ij.2 = j then RPhase.finished else s.rphase ij.1 ij.2)
              = RPhase.inFlight)
          ⊆ Finset.univ.filter fun ij : Fin p.n × Fin p.m =>
              p.host ij.1 = hkey ∧ s.rphase ij.1 ij.2 = RPhase.inFlight := by
        intro ab hab
        rw [Finset.mem_filter] at hab
        by_cases hc : ab.1 = i ∧ ab.2 = j
        · rw [if_pos hc] at hab
          exact absurd hab.2.2 (by simp)
        · rw [if_neg hc] at hab
          exact Finset.mem_filter.mpr ⟨Finset.mem_univ ab, hab.2⟩
      have hc1 := Finset.card_le_card hsub
      have hb : (Finset.univ.filter fun ij : Fin p.n × Fin p.m =>
          p.host ij.1 = hkey ∧ s.rphase ij.1 ij.2 = RPhase.inFlight).card
          ≤ p.perServerLimit := h2 hkey
      show (Finset.univ.filter fun ij : Fin p.n × Fin p.m =>
          p.host ij.1 = hkey ∧
            (if ij.1 = i ∧ ij.2 = j then RPhase.finished else s.rphase ij.1 ij.2)
              = RPhase.inFlight).card
          ≤ p.perServerLimit
      omega
    · intro a b ha
      have ha2 : s.tphase a = TPhase.waiting := ha
      show (if a = i ∧ b = j then RPhase.finished else s.rphase a b) = RPhase.idle
      by_cases hc : a = i ∧ b = j
      · have hidle := h3 a b ha2
        rw [hc.1, hc.2] at hidle
        rw [hidle] at hf
        exact absurd hf (by simp)
      · rw [if_neg hc]
        exact h3 a b ha2
  | finishTarget i s hr hall =>
    refine ⟨?_, h2, ?_⟩
    · have hsub : (Finset.univ.filter
          fun a : Fin p.n => Function.update s.tphase i TPhase.done a = TPhase.running)
          ⊆ Finset.univ.filter fun a : Fin p.n => s.tphase a = TPhase.running := by
        intro a ha
        rw [Finset.mem_filter] at ha
        by_cases hai : a = i
        · rw [hai, Function.update_same] at ha
          exact absurd ha.2 (by simp)
        · rw [Function.update_noteq hai] at ha
          exact Finset.mem_filter.mpr ha
      have hc1 := Finset.card_le_card hsub
      have h1' : (Finset.univ.filter
          fun a : Fin p.n => s.tphase a = TPhase.running).card ≤ p.maxConcurrent := h1
      show (Finset.univ.filter
          fun a : Fin p.n => Function.update s.tphase i TPhase.done a = TPhase.running).card
          ≤ p.maxConcurrent
      omega
    · intro a b ha
      have ha2 : Function.update s.tphase i TPhase.done a = TPhase.waiting := ha
      by_cases hai : a = i
      · rw [hai, Function.update_same] at ha2
        exact absurd ha2 (by simp)
      · rw [Function.update_noteq hai] at ha2
        exact h3 a b ha2

lemma reachable_admInv (p : Params) (s : BState p) (h : Reachable p s) :
    AdmInv p s := by
  induction h with
  | refl => exact admInv_init p
  | tail _ hstep ih => exact admInv_step p _ _ ih hstep

/-- A target's in-flight requests inject into its host's in-flight
requests. -/
lemma targetInFlight_le_hostInFlight (p : Params) (s : BState p) (i : Fin p.n) :
    targetInFlight s i ≤ hostInFlight s (p.host i) := by
  unfold targetInFlight hostInFlight
  apply Finset.card_le_card_of_injOn (fun j => (i, j))
  · intro j hj
    rw [Finset.mem_filter] at hj
    exact Finset.mem_filter.mpr ⟨Finset.mem_univ _, rfl, hj.2⟩
  · intro a _ b _ hab
    exact congrArg Prod.snd hab

/-! ### Final helper lemmas -/

lemma testServer_fields (url : String) (raws : List RawResult) :
    (testServer url raws).success = (collectStats url raws).success ∧
    (testServer url raws).failed = (collectStats url raws).failed ∧
    (testServer url raws).errors = (collectStats url raws).errors ∧
    (testServer url raws).times = (collectStats url raws).times := by
  unfold testServer
  rw [applyGatherLoop_eq]
  exact finalizeStats_counters _

lemma finalizeStats_empty (st : Stats) (h : st.times = []) :
    (finalizeStats st).min = 0 ∧ (finalizeStats st).max = 0 ∧
    (finalizeStats st).avg = 0 ∧ (finalizeStats st).variance = 0 := by
  unfold finalizeStats
  rw [h]
  simp

lemma finalizeStats_nonempty (st : Stats) (h : st.times ≠ []) :
    (finalizeStats st).min = pyMin st.times ∧
    (finalizeStats st).max = pyMax st.times ∧
    (finalizeStats st).avg = st.times.sum / (st.times.length : ℚ) ∧
    (finalizeStats st).variance
      = (st.times.map
          (fun t => (t - st.times.sum / (st.times.length : ℚ)) ^ 2)).sum
        / (st.times.length : ℚ) := by
  have hb : st.times.isEmpty = false := by
    cases hL : st.times with
    | nil => exact absurd hL h
    | cons x xs => rfl
  unfold finalizeStats
  rw [hb]
  rw [if_neg (by simp : ¬ (false = true))]
  exact ⟨rfl, rfl, rfl, rfl⟩

/-! ### Claim theorems -/

/-- C3: For every single request attempt, a transport-level failure (timeout,
connection refused/reset, or any other I/O failure) is classified as an
error; a response with status code in [200, 300) is classified as a success
whose elapsed time spans from request start (`tStart`, line 52) until the
body is fully read (`tBodyRead`, lines 54-55); a response with any other
status code is classified as a failure and its elapsed time is not recorded
as a latency sample (the `times` list is unchanged). -/
theorem request_classification (status bad : Nat) (t0 t1 : ℚ) (st : Stats)
    (hok : 200 ≤ status ∧ status < 300)
    (hbad : ¬ (200 ≤ bad ∧ bad < 300)) :
    makeRequest (.response status t0 t1) = .recorded (.success (t1 - t0)) ∧
    makeRequest (.response bad t0 t1) = .recorded (.failure bad) ∧
    (applyEffect st (makeRequest (.response bad t0 t1))).times = st.times ∧
    makeRequest .timeoutError = .recorded .error ∧
    makeRequest .connectionError = .recorded .error ∧
    makeRequest .clientError = .recorded .error ∧
    makeRequest .otherException = .recorded .error := by
  refine ⟨?_, ?_, ?_, rfl, rfl, rfl, rfl⟩
  · simp [makeRequest, hok]
  · simp [makeRequest, hbad]
  · simp [makeRequest, hbad, applyEffect]

theorem request_classification_witness :
    ((200 : Nat) ≤ 200 ∧ (200 : Nat) < 300) ∧
    ¬ ((200 : Nat) ≤ 404 ∧ (404 : Nat) < 300) ∧
    (makeRequest (.response 200 0 1) = .recorded (.success (1 - 0)) ∧
     makeRequest (.response 404 0 1) = .recorded (.failure 404) ∧
     (applyEffect (initStats "u") (makeRequest (.response 404 0 1))).times
        = (initStats "u").times ∧
     makeRequest .timeoutError = .recorded .error ∧
     makeRequest .connectionError = .recorded .error ∧
     makeRequest .clientError = .recorded .error ∧
     makeRequest .otherException = .recorded .error) :=
  ⟨by decide, by decide,
    request_classification 200 404 0 1 (initStats "u") (by decide) (by decide)⟩

/-- C8: A cancellation signal delivered while a request is outstanding is
propagated to the caller (`raise`, lines 69-70) rather than recorded as an
error outcome: a cancelled attempt leaves the stats dict untouched, and
inserting a cancelled attempt anywhere into a burst changes none of the
target's finalized statistics — in particular none of the three counters. -/
theorem cancellation_not_counted (url : String) (pre post : List RawResult)
    (st : Stats) :
    makeRequest .cancelled = .propagateCancel ∧
    applyEffect st (makeRequest .cancelled) = st ∧
    testServer url (pre ++ RawResult.cancelled :: post) = testServer url (pre ++ post) := by
  refine ⟨rfl, rfl, ?_⟩
  unfold testServer
  rw [applyGatherLoop_eq, applyGatherLoop_eq]
  unfold collectStats
  rw [List.foldl_append, List.foldl_append, List.foldl_cons]
  rfl

/-- C4: For every target, `success + failed + errors` equals the number of
request outcomes actually recorded for that target; the recorded outcomes
plus the cancelled attempts exactly partition the burst (so the sum is
≤ `requests_count` and is strictly less exactly when some request was
cancelled mid-flight); and the recorded latency list has length
`success`. -/
theorem stats_accounting (url : String) (raws : List RawResult) :
    (testServer url raws).success + (testServer url raws).failed
        + (testServer url raws).errors = (recordedOutcomes raws).length ∧
    (recordedOutcomes raws).length ≤ raws.length ∧
    (recordedOutcomes raws).length + raws.count RawResult.cancelled = raws.length ∧
    (testServer url raws).times.length = (testServer url raws).success := by
  obtain ⟨hs, hf, he, ht⟩ := testServer_fields url raws
  have hpart := recorded_add_cancelled raws
  refine ⟨?_, by omega, hpart, ?_⟩
  · rw [hs, hf, he]
    have hc : (collectStats url raws).success + (collectStats url raws).failed
        + (collectStats url raws).errors
        = (initStats url).success + (initStats url).failed + (initStats url).errors
          + (recordedOutcomes raws).length := collect_foldl_counts raws (initStats url)
    simpa [initStats] using hc
  · rw [ht, hs, collectStats_times url raws, collectStats_success url raws]

/-- C7: For every target whose `success` count is 0 (empty latency set), the
finalized statistics satisfy `min = max = avg = 0`, the variance is 0 and
hence `std_dev = 0`; the empty branch at lines 44-45 yields defined values,
never an error or NaN. -/
theorem empty_latency_zero_stats (url : String) (raws : List RawResult)
    (h : (testServer url raws).success = 0) :
    (testServer url raws).min = 0 ∧ (testServer url raws).max = 0 ∧
    (testServer url raws).avg = 0 ∧ (testServer url raws).variance = 0 ∧
    (testServer url raws).stdDev = 0 := by
  obtain ⟨hs, -, -, ht⟩ := testServer_fields url raws
  have hempty : (collectStats url raws).times = [] := by
    rw [collectStats_times url raws]
    apply List.length_eq_zero.mp
    rw [← collectStats_success url raws, ← hs]
    exact h
  have hfe := finalizeStats_empty (applyGatherLoop (collectStats url raws) raws)
    (by rw [applyGatherLoop_eq]; exact hempty)
  refine ⟨hfe.1, hfe.2.1, hfe.2.2.1, hfe.2.2.2, ?_⟩
  have hv : (testServer url raws).variance = 0 := hfe.2.2.2
  show Real.sqrt (((testServer url raws).variance : ℚ) : ℝ) = 0
  rw [hv]
  simp

theorem empty_latency_zero_stats_witness :
    (testServer "u" [RawResult.response 404 0 1]).success = 0 ∧
    ((testServer "u" [RawResult.response 404 0 1]).min = 0 ∧
     (testServer "u" [RawResult.response 404 0 1]).max = 0 ∧
     (testServer "u" [RawResult.response 404 0 1]).avg = 0 ∧
     (testServer "u" [RawResult.response 404 0 1]).variance = 0 ∧
     (testServer "u" [RawResult.response 404 0 1]).stdDev = 0) :=
  ⟨by decide, empty_latency_zero_stats "u" [RawResult.response 404 0 1] (by decide)⟩

/-- C6: The per-target statistics finalization computes min, max, arithmetic
mean and population standard deviation (variance divided by N, the code's
`/ len(stats['times'])` at lines 41-42, then `** 0.5`) over exactly the
elapsed times of successful outcomes — the `times` list equals the successes'
elapsed values, failures and errors contribute no sample — and the computed
fields agree with the spec-side definitions `specMean`, `specPopVariance`,
`specPopStdDev`. -/
theorem finalize_population_stats (url : String) (raws : List RawResult)
    (h : successTimes raws ≠ []) :
    (testServer url raws).times = successTimes raws ∧
    (testServer url raws).min ∈ successTimes raws ∧
    (∀ t ∈ successTimes raws, (testServer url raws).min ≤ t) ∧
    (testServer url raws).max ∈ successTimes raws ∧
    (∀ t ∈ successTimes raws, t ≤ (testServer url raws).max) ∧
    (testServer url raws).avg = specMean (successTimes raws) ∧
    (testServer url raws).variance = specPopVariance (successTimes raws) ∧
    (testServer url raws).stdDev = specPopStdDev (successTimes raws) := by
  have htimes : (applyGatherLoop (collectStats url raws) raws).times
      = successTimes raws := by
    rw [applyGatherLoop_eq]
    exact collectStats_times url raws
  have hne : (applyGatherLoop (collectStats url raws) raws).times ≠ [] := by
    rw [htimes]
    exact h
  obtain ⟨hmin, hmax, havg, hvar⟩ :=
    finalizeStats_nonempty (applyGatherLoop (collectStats url raws) raws) hne
  have htms : (testServer url raws).times = successTimes raws := by
    have hcopy := (finalizeStats_counters (applyGatherLoop (collectStats url raws) raws)).2.2.2
    calc (testServer url raws).times
        = (applyGatherLoop (collectStats url raws) raws).times := hcopy
      _ = successTimes raws := htimes
  have e1 : (testServer url raws).min = pyMin (successTimes raws) := by
    rw [← htimes]
    exact hmin
  have e2 : (testServer url raws).max = pyMax (successTimes raws) := by
    rw [← htimes]
    exact hmax
  have e3 : (testServer url raws).avg
      = (successTimes raws).sum / ((successTimes raws).length : ℚ) := by
    rw [← htimes]
    exact havg
  have e4 : (testServer url raws).variance
      = ((successTimes raws).map
          (fun t => (t - (successTimes raws).sum / ((successTimes raws).length : ℚ)) ^ 2)).sum
        / ((successTimes raws).length : ℚ) := by
    rw [← htimes]
    exact hvar
  refine ⟨htms, ?_, ?_, ?_, ?_, e3, e4, ?_⟩
  · rw [e1]
    exact pyMin_mem (successTimes raws) h
  · intro t ht
    rw [e1]
    exact pyMin_le (successTimes raws) t ht
  · rw [e2]
    exact pyMax_mem (successTimes raws) h
  · intro t ht
    rw [e2]
    exact pyMax_ge (successTimes raws) t ht
  · show Real.sqrt (((testServer url raws).variance : ℚ) : ℝ)
        = specPopStdDev (successTimes raws)
    rw [e4]
    rfl

theorem finalize_population_stats_witness :
    successTimes [RawResult.response 200 0 1, RawResult.response 201 2 4] ≠ [] ∧
    ((testServer "u" [RawResult.response 200 0 1, RawResult.response 201 2 4]).times
        = successTimes [RawResult.response 200 0 1, RawResult.response 201 2 4] ∧
     (testServer "u" [RawResult.response 200 0 1, RawResult.response 201 2 4]).min
        ∈ successTimes [RawResult.response 200 0 1, RawResult.response 201 2 4] ∧
     (∀ t ∈ successTimes [RawResult.response 200 0 1, RawResult.response 201 2 4],
        (testServer "u" [RawResult.response 200 0 1, RawResult.response 201 2 4]).min ≤ t) ∧
     (testServer "u" [RawResult.response 200 0 1, RawResult.response 201 2 4]).max
        ∈ successTimes [RawResult.response 200 0 1, RawResult.response 201 2 4] ∧
     (∀ t ∈ successTimes [RawResult.response 200 0 1, RawResult.response 201 2 4],
        t ≤ (testServer "u" [RawResult.response 200 0 1, RawResult.response 201 2 4]).max) ∧
     (testServer "u" [RawResult.response 200 0 1, RawResult.response 201 2 4]).avg
        = specMean (successTimes [RawResult.response 200 0 1, RawResult.response 201 2 4]) ∧
     (testServer "u" [RawResult.response 200 0 1, RawResult.response 201 2 4]).variance
        = specPopVariance (successTimes [RawResult.response 200 0 1, RawResult.response 201 2 4]) ∧
     (testServer "u" [RawResult.response 200 0 1, RawResult.response 201 2 4]).stdDev
        = specPopStdDev (successTimes [RawResult.response 200 0 1, RawResult.response 201 2 4])) :=
  ⟨by decide,
    finalize_population_stats "u" [RawResult.response 200 0 1, RawResult.response 201 2 4]
      (by decide)⟩

/-- C1 (evaluating the code at the failing input): with two targets whose
first task has finalized — its gather slot is filled with its stats dict —
while the second is still running when the overall deadline elapses,
`run_benchmark` returns the untouched initial `self.results`, the empty
list: the finalized target's `TargetStats` are NOT in the returned result,
because the assignment at lines 99-102 never runs when
`asyncio.wait_for` raises `TimeoutError`. -/
theorem timeout_discards_finalized_stats :
    ((runGather ["http://a.example.com", "http://b.example.com"]
        [TaskInput.run [RawResult.response 200 0 1],
         TaskInput.run [RawResult.response 200 0 1]] [0]).getD 0 none).isSome = true ∧
    runBenchmark ["http://a.example.com", "http://b.example.com"]
        [TaskInput.run [RawResult.response 200 0 1],
         TaskInput.run [RawResult.response 200 0 1]] [0] true = [] :=
  ⟨by decide, rfl⟩

/-- C9: If one target's task fails with an unexpected exception, that
failure is recorded for that target only (its gather slot holds the
exception object) and does not cancel or alter any sibling's result: under
`return_exceptions=True` (line 100), every other slot of the run result is
identical to what it is with any other input for the failing target. -/
theorem task_fault_isolation (servers : List String)
    (inputs1 inputs2 : List TaskInput) (order : List Nat) (i j : Nat)
    (hdiff : ∀ k, k ≠ i → inputs1.getD k .fail = inputs2.getD k .fail)
    (hj : j ≠ i)
    (hfail : inputs2.getD i .fail = .fail)
    (hio : i ∈ order) (hilen : i < servers.length) :
    (runBenchmark servers inputs1 order false)[j]? =
      (runBenchmark servers inputs2 order false)[j]? ∧
    (runBenchmark servers inputs2 order false)[i]? = some (some TaskEntry.exc) := by
  constructor
  · show (runGather servers inputs1 order)[j]? = (runGather servers inputs2 order)[j]?
    unfold runGather
    rw [gatherRun_getElem, gatherRun_getElem]
    have hfj : taskResult (servers.getD j "") (inputs1.getD j .fail)
        = taskResult (servers.getD j "") (inputs2.getD j .fail) := by
      rw [hdiff j hj]
    by_cases hc : j ∈ order ∧ j < servers.length
    · rw [if_pos hc, if_pos hc, hfj]
    · rw [if_neg hc, if_neg hc]
  · show (runGather servers inputs2 order)[i]? = some (some TaskEntry.exc)
    unfold runGather
    rw [gatherRun_getElem, if_pos ⟨hio, hilen⟩, hfail]
    rfl

theorem task_fault_isolation_witness :
    (0 : Nat) ≠ 1 ∧
    ([TaskInput.run [RawResult.response 200 0 1], TaskInput.fail].getD 1 .fail
        = TaskInput.fail) ∧
    (1 : Nat) ∈ [0, 1] ∧ (1 : Nat) < 2 ∧
    ((runBenchmark ["http://a.example.com", "http://b.example.com"]
        [TaskInput.run [RawResult.response 200 0 1],
         TaskInput.run [RawResult.response 500 0 1]] [0, 1] false)[0]? =
      (runBenchmark ["http://a.example.com", "http://b.example.com"]
        [TaskInput.run [RawResult.response 200 0 1], TaskInput.fail] [0, 1] false)[0]? ∧
     (runBenchmark ["http://a.example.com", "http://b.example.com"]
        [TaskInput.run [RawResult.response 200 0 1], TaskInput.fail]
          [0, 1] false)[1]? = some (some TaskEntry.exc)) :=
  ⟨by decide, rfl, by decide, by decide,
    task_fault_isolation
      ["http://a.example.com", "http://b.example.com"]
      [TaskInput.run [RawResult.response 200 0 1],
       TaskInput.run [RawResult.response 500 0 1]]
      [TaskInput.run [RawResult.response 200 0 1], TaskInput.fail]
      [0, 1] 1 0
      (by
        intro k hk
        cases k with
        | zero => rfl
        | succ k1 =>
          cases k1 with
          | zero => exact absurd rfl hk
          | succ k2 => rfl)
      (by decide) rfl (by decide) (by decide)⟩

/-- C10: When the run completes without the overall deadline elapsing,
`run_benchmark` returns exactly one entry per input server URL, in the
order of the input server list — entry `k` is server `k`'s finalized stats
dict or the exception its task raised — whatever order (any permutation of
the task indices) the tasks completed in. -/
theorem results_in_input_order (servers : List String) (inputs : List TaskInput)
    (order : List Nat)
    (hord : order.Perm (List.range servers.length)) :
    runBenchmark servers inputs order false
      = (List.range servers.length).map
          (fun k => some (taskResult (servers.getD k "") (inputs.getD k .fail))) ∧
    (runBenchmark servers inputs order false).length = servers.length := by
  constructor
  · show runGather servers inputs order = _
    exact gatherRun_perm
      (fun k => taskResult (servers.getD k "") (inputs.getD k .fail))
      servers.length order hord
  · show (runGather servers inputs order).length = servers.length
    exact gatherRun_length _ _ _

theorem results_in_input_order_witness :
    ([1, 0] : List Nat).Perm (List.range 2) ∧
    (runBenchmark ["http://a.example.com", "http://b.example.com"]
        [TaskInput.run [RawResult.response 200 0 1], TaskInput.fail] [1, 0] false
      = (List.range 2).map (fun k =>
          some (taskResult
            ((["http://a.example.com", "http://b.example.com"]).getD k "")
            (([TaskInput.run [RawResult.response 200 0 1], TaskInput.fail]).getD k .fail))) ∧
     (runBenchmark ["http://a.example.com", "http://b.example.com"]
        [TaskInput.run [RawResult.response 200 0 1], TaskInput.fail] [1, 0] false).length
       = 2) :=
  ⟨by decide,
    results_in_input_order
      ["http://a.example.com", "http://b.example.com"]
      [TaskInput.run [RawResult.response 200 0 1], TaskInput.fail]
      [1, 0] (by decide)⟩

/-- C5: At no instant during a run do more than `max_concurrent` targets
hold an active global admission slot: in every reachable state of the
admission semantics, the number of targets holding a slot of the shared
`asyncio.Semaphore(max_concurrent)` (lines 29, 91) is at most
`max_concurrent`. -/
theorem global_slot_bound (p : Params) (s : BState p) (h : Reachable p s) :
    runningCount s ≤ p.maxConcurrent :=
  (reachable_admInv p s h).1

/-- Scenario D of the spec: 3 targets on distinct hosts, 4 requests each,
`max_concurrent = 2`, `per_server_limit = 1`, connector `limit = 100`. -/
def scenarioD : Params :=
  { n := 3, m := 4, maxConcurrent := 2, perServerLimit := 1, connLimit := 100,
    host := fun i => i.val }

theorem global_slot_bound_witness :
    Reachable scenarioD (initState scenarioD) ∧
      runningCount (initState scenarioD) ≤ scenarioD.maxConcurrent :=
  ⟨Relation.ReflTransGen.refl,
    global_slot_bound scenarioD (initState scenarioD) Relation.ReflTransGen.refl⟩

/-- C2: At no instant during a run does any single target have more than
`per_server_limit` requests in flight (on the wire, holding one of the
connection pool's per-host slots) simultaneously: in every reachable state
of the admission semantics, the connector's
`limit_per_host = per_server_limit` (line 79) bounds each target's in-flight
requests — with `per_server_limit = 1`, never more than 1 outstanding
request, whatever `requests_count` is. -/
theorem per_target_inflight_bound (p : Params) (s : BState p) (i : Fin p.n)
    (h : Reachable p s) :
    targetInFlight s i ≤ p.perServerLimit :=
  le_trans (targetInFlight_le_hostInFlight p s i)
    ((reachable_admInv p s h).2.1 (p.host i))

theorem per_target_inflight_bound_witness :
    Reachable scenarioD (initState scenarioD) ∧
      targetInFlight (initState scenarioD) ⟨0, by decide⟩ ≤ scenarioD.perServerLimit :=
  ⟨Relation.ReflTransGen.refl,
    per_target_inflight_bound scenarioD (initState scenarioD) ⟨0, by decide⟩
      Relation.ReflTransGen.refl⟩
